import Mathlib

/-!
Verification of the deep-rent/retry Go library: the backoff strategies of
the `backoff` package and the retry cycle of the `retry` package.

Modelling conventions:

* `time.Duration` is int64 nanoseconds; it is modelled as `Int` (named
  `Duration`), with the int64 range made explicit where it matters.
* `time.Time` instants are modelled as `Int` nanosecond timestamps;
  `time.Time.Sub` is modelled as plain subtraction. (`Sub` saturates at
  the int64 bounds, but saturation cannot change the outcome of the
  `>=` comparison it feeds in `timeout.Delay`, because the timeout limit
  itself is a representable int64.)
* Go `float64` arithmetic is modelled as exact rational arithmetic; the
  concrete inputs evaluated in the theorems below are chosen so that the
  corresponding `float64` computations are exact.
* The conversion `time.Duration(x)` of a `float64` value `x` truncates
  toward zero; for out-of-range values the Go specification makes the
  result implementation-dependent, and `float2int64` models the
  behaviour of amd64 (`cvttsd2si`), which yields math.MinInt64 = -2^63.
* The `Clock` and `Random` collaborators of a strategy are modelled by
  the values they return during a single `Delay` call (arguments `now`
  and `r` below); the repository's own tests inject constant clocks and
  constant random sources in exactly this way.
* Go functions that panic on bad construction parameters (`Constant`,
  `Exponential`, `Jitter`) return `Option`; `none` models the panic.
-/

namespace Retry

/-- Go `time.Duration`: int64 nanoseconds, modelled as `Int`. -/
abbrev Duration := Int

/-- `backoff.Exit`, the sentinel a strategy returns to end a retry
cycle (`var Exit time.Duration = -1` in the `backoff` package). -/
def Exit : Duration := -1

/-- Go conversion `time.Duration(x)` applied to a `float64` value,
modelled on an exact rational: truncation toward zero when the value is
in int64 range, and the amd64 out-of-range result -2^63 otherwise (the
Go specification leaves the out-of-range result implementation
dependent; amd64 and 386 produce math.MinInt64). -/
def float2int64 (x : ℚ) : Int :=
  if x ≤ -(2 ^ 63 : ℚ) ∨ (2 ^ 63 : ℚ) ≤ x then -(2 ^ 63)
  else if 0 ≤ x then Int.floor x else Int.ceil x

/-- The closed set of backoff strategy values occurring in the
repository: the base struct types `constant` and `exponential` and the
decorator struct types `cap`, `limit`, `timeout` and `jitter`, each
holding its construction-time parameters (the `linear` strategy is not
needed by any claim and is omitted). The `Clock` held by `timeout` and
the `Random` held by `jitter` are supplied to `Delay` as arguments. -/
inductive Strategy where
  | constant (d : Duration)
  | exponential (d : Duration) (m : ℚ)
  | cap (inner : Strategy) (mx : Duration)
  | limit (inner : Strategy) (k : Int)
  | timeout (inner : Strategy) (lim : Duration)
  | jitter (inner : Strategy) (spread : ℚ)
deriving DecidableEq

/-- `Strategy.Delay s n start now r` is the Go method `s.Delay(n, start)`
evaluated in an environment where every `Clock` consulted during the
call returns the instant `now` and every `Random` consulted returns the
sample `r`. Each arm transcribes the corresponding Go `Delay` method:

* `constant.Delay` returns the stored delay `d`;
* `exponential.Delay` returns
  `time.Duration(float64(d) * math.Pow(m, float64(n-1)))`;
* `cap` is modelled from the spec (its source file is absent from the
  repository snapshot): `min(inner(n, start), max)`;
* `limit.Delay` returns `Exit` when `n >= lim.n`, else delegates;
* `timeout.Delay` returns `Exit` when `clock.Time().Sub(start) >= limit`,
  else delegates;
* `jitter.Delay` first obtains the inner delay, passes `Exit` through
  unchanged, and otherwise returns
  `time.Duration(float64(delay) - w + random()*(2*w + 1))` with
  `w = float64(delay) * spread`. -/
def Strategy.Delay : Strategy → Int → Int → Int → ℚ → Duration
  | .constant d, _, _, _, _ => d
  | .exponential d m, n, _, _, _ => float2int64 ((d : ℚ) * m ^ (n - 1))
  | .cap inner mx, n, start, now, r => min (inner.Delay n start now r) mx
  | .limit inner k, n, start, now, r =>
      if n ≥ k then Exit else inner.Delay n start now r
  | .timeout inner lim, n, start, now, r =>
      if now - start ≥ lim then Exit else inner.Delay n start now r
  | .jitter inner s, n, start, now, r =>
      let delay := inner.Delay n start now r
      if delay = Exit then delay
      else
        let w : ℚ := (delay : ℚ) * s
        float2int64 ((delay : ℚ) - w + r * (2 * w + 1))

/-- `backoff.Constant`: panics (`none`) when `d < 0`, else the
`constant` strategy. -/
def Constant (d : Duration) : Option Strategy :=
  if d < 0 then none else some (.constant d)

/-- `backoff.Exponential`: transcribes the constructor's `switch`:
panic on `d < 0`, panic on `m < 0`, `Constant(0)` when `d == 0 || m == 0`,
`Constant(d)` when `m == 1`, and the `exponential` struct otherwise. -/
def Exponential (d : Duration) (m : ℚ) : Option Strategy :=
  if d < 0 then none
  else if m < 0 then none
  else if d = 0 ∨ m = 0 then Constant 0
  else if m = 1 then Constant d
  else some (.exponential d m)

/-- Modelled from the spec: the `Cap` decorator constructor. The file
implementing `Cap` is absent from the repository snapshot (only
`cap_test.go` and its callers are present). The spec defines it as
`delay = min(inner(n,start), max)` with `max ≤ 0` a no-op passthrough
that returns the inner strategy unchanged. -/
def Cap (strategy : Strategy) (mx : Duration) : Strategy :=
  if mx ≤ 0 then strategy else .cap strategy mx

/-- `backoff.Limit`: returns the inner strategy unchanged when `n < 1`,
else wraps it in the `limit` struct. -/
def Limit (strategy : Strategy) (k : Int) : Strategy :=
  if k < 1 then strategy else .limit strategy k

/-- `backoff.Timeout`: returns the inner strategy unchanged when
`limit <= 0`, else wraps it in the `timeout` struct. -/
def Timeout (strategy : Strategy) (lim : Duration) : Strategy :=
  if lim ≤ 0 then strategy else .timeout strategy lim

/-- `backoff.Jitter`: panics (`none`) when the spread is outside
`[0,1)`, returns the inner strategy unchanged when `spread == 0`, and
wraps it in the `jitter` struct otherwise. -/
def Jitter (strategy : Strategy) (spread : ℚ) : Option Strategy :=
  if spread < 0 ∨ 1 ≤ spread then none
  else if spread = 0 then some strategy
  else some (.jitter strategy spread)

/-- Go `error` values as the retry loop distinguishes them: either an
`*ExitError` (the type `retry.ExitError`, carrying a `Cause`), or any
other error, identified by a numeric tag. The loop's type assertion
`err.(*ExitError)` corresponds to matching on the `exitErr`
constructor. -/
inductive GoError where
  | exitErr (cause : GoError)
  | err (tag : Nat)
deriving DecidableEq

/-- The observable events of one run of `Cycler.TryWithContext`, in
program order:

* `attempted n res`: the call `attempt(n)` returned `res`
  (`none` = Go `nil`);
* `consulted n d`: the call `c.strategy.Delay(n, start)` returned `d`;
* `ctxReadAtExit n e`: the read `ctx.Err()` in the `delay == Exit`
  branch returned `e`;
* `notified i n d e`: the `i`-th registered handler (0-based, in
  registration order) was invoked as `h(n, d, e)`;
* `cancelledInWait n e`: `ctx.Done()` won the `select` during the wait
  after attempt `n`, and `ctx.Err()` returned `e`;
* `waited n d`: the timer for delay `d` elapsed after attempt `n`. -/
inductive Event where
  | attempted (n : Nat) (result : Option GoError)
  | consulted (n : Nat) (d : Duration)
  | ctxReadAtExit (n : Nat) (e : Option GoError)
  | notified (idx n : Nat) (d : Duration) (e : GoError)
  | cancelledInWait (n : Nat) (e : GoError)
  | waited (n : Nat) (d : Duration)
deriving DecidableEq

/-- The environment of one `TryWithContext` run. The strategy held by
the cycler is opaque to the loop (an interface call), so it is modelled
by the function `delay n = c.strategy.Delay(n, start)` for the run's
fixed `start`. The context is modelled by what the loop's three
interaction points observe: `ctxErrAtExit n` is the value `ctx.Err()`
read in the `delay == Exit` branch after attempt `n`; `ctxWinsWait n`
tells whether `ctx.Done()` wins the `select` during the wait after
attempt `n`; `ctxErrAtWait n` is the value `ctx.Err()` returns in that
case (non-nil whenever `Done` is closed, per the `context` contract). -/
structure Env where
  attempt : Nat → Option GoError
  delay : Nat → Duration
  ctxErrAtExit : Nat → Option GoError
  ctxWinsWait : Nat → Bool
  ctxErrAtWait : Nat → GoError

/-- One transcription of the retry loop of `Cycler.TryWithContext`
(src/retry.go lines 164-210), with `H` registered error handlers,
driven by `fuel` remaining loop iterations and the attempt count `n0`
so far. It returns the method's result (`none` when the fuel ran out
before the loop exited; `some res` with `res : Option GoError` the
returned Go error, `none` = `nil`) together with the trace of events,
in order. The loop body, in program order: increment `n`; call
`attempt(n)`; return `nil` on success; return `e.Cause` on
`*ExitError`; consult the strategy; on `Exit` read `ctx.Err()` and
return it if non-nil, else the attempt's error; otherwise notify every
handler in registration order; then wait, racing the delay timer
against `ctx.Done()`: if the context wins, return `ctx.Err()`,
otherwise loop. -/
def cyclerLoop (env : Env) (H : Nat) : Nat → Nat → Option (Option GoError) × List Event
  | 0, _ => (none, [])
  | fuel + 1, n0 =>
    let n := n0 + 1
    match env.attempt n with
    | none => (some none, [.attempted n none])
    | some (.exitErr cause) =>
        (some (some cause), [.attempted n (some (.exitErr cause))])
    | some (.err tag) =>
        let d := env.delay n
        if d = Exit then
          let ce := env.ctxErrAtExit n
          (some (some (ce.getD (.err tag))),
           [.attempted n (some (.err tag)), .consulted n d, .ctxReadAtExit n ce])
        else
          let notifs := (List.range H).map fun j => Event.notified j n d (.err tag)
          if env.ctxWinsWait n then
            (some (some (env.ctxErrAtWait n)),
             .attempted n (some (.err tag)) :: .consulted n d ::
               (notifs ++ [.cancelledInWait n (env.ctxErrAtWait n)]))
          else
            let rest := cyclerLoop env H fuel n
            (rest.1,
             .attempted n (some (.err tag)) :: .consulted n d ::
               (notifs ++ .waited n d :: rest.2))

/-- `Cycler.TryWithContext ctx attempt` for a cycler with `H` handlers:
the loop started at attempt count 0. -/
def TryWithContext (env : Env) (H : Nat) (fuel : Nat) : Option (Option GoError) × List Event :=
  cyclerLoop env H fuel 0

/-- `Cycler.Try attempt` calls `TryWithContext` with
`context.Background()`: a context whose `Err()` is always `nil` and
whose `Done()` channel never becomes ready (the `ctxErrAtWait` field is
a dead value, never read). -/
def Try (attempt : Nat → Option GoError) (delay : Nat → Duration) (H : Nat) (fuel : Nat) :
    Option (Option GoError) × List Event :=
  TryWithContext
    { attempt := attempt
      delay := delay
      ctxErrAtExit := fun _ => none
      ctxWinsWait := fun _ => false
      ctxErrAtWait := fun _ => .err 0 } H fuel

/-- A concrete run environment for instantiating the run-level
theorems: every attempt fails with error tag 3, the strategy always
returns `Exit`, and the context is already cancelled with error
tag 9. -/
def envExit : Env :=
  { attempt := fun _ => some (.err 3), delay := fun _ => Exit,
    ctxErrAtExit := fun _ => some (.err 9), ctxWinsWait := fun _ => true,
    ctxErrAtWait := fun _ => .err 9 }

/-- A concrete run environment: every attempt returns an `ExitError`
wrapping error tag 7, on a background (never cancelled) context. -/
def envTerminal : Env :=
  { attempt := fun _ => some (.exitErr (.err 7)), delay := fun _ => 5,
    ctxErrAtExit := fun _ => none, ctxWinsWait := fun _ => false,
    ctxErrAtWait := fun _ => .err 0 }

/-- A concrete run environment: every attempt fails with error tag 4,
the strategy always returns 10 ns, on a background context. -/
def envRetry : Env :=
  { attempt := fun _ => some (.err 4), delay := fun _ => 10,
    ctxErrAtExit := fun _ => none, ctxWinsWait := fun _ => false,
    ctxErrAtWait := fun _ => .err 0 }

/-- A concrete run environment: every attempt fails with error tag 4,
the strategy always returns 10 ns, and the context is already
cancelled with error tag 8 (so `ctx.Done()` wins every wait). -/
def envPrecancelled : Env :=
  { attempt := fun _ => some (.err 4), delay := fun _ => 10,
    ctxErrAtExit := fun _ => some (.err 8), ctxWinsWait := fun _ => true,
    ctxErrAtWait := fun _ => .err 8 }
/-- Claim C1: whenever the attempt that just failed got an ordinary
error and the composed strategy returns the `Exit` sentinel for it, the
run terminates at that iteration, returning the context's error when
`ctx.Err()` is non-nil at that moment and the attempt's error
otherwise; the full remaining trace is the attempt, the strategy
consultation and the context read, nothing more. -/
theorem exit_returns_ctx_or_last_error (env : Env) (H fuel n0 tag : Nat)
    (h : env.attempt (n0+1) = some (.err tag))
    (hd : env.delay (n0+1) = Exit) :
    cyclerLoop env H (fuel+1) n0 =
      (some (some ((env.ctxErrAtExit (n0+1)).getD (.err tag))),
       [.attempted (n0+1) (some (.err tag)), .consulted (n0+1) (env.delay (n0+1)),
        .ctxReadAtExit (n0+1) (env.ctxErrAtExit (n0+1))]) ∧
    (∀ ce, env.ctxErrAtExit (n0+1) = some ce →
      (cyclerLoop env H (fuel+1) n0).1 = some (some ce)) ∧
    (env.ctxErrAtExit (n0+1) = none →
      (cyclerLoop env H (fuel+1) n0).1 = some (some (.err tag))) := by
  have he : cyclerLoop env H (fuel+1) n0 =
      (some (some ((env.ctxErrAtExit (n0+1)).getD (.err tag))),
       [.attempted (n0+1) (some (.err tag)), .consulted (n0+1) (env.delay (n0+1)),
        .ctxReadAtExit (n0+1) (env.ctxErrAtExit (n0+1))]) := by
    simp only [cyclerLoop]
    rw [h]
    simp [hd]
  refine ⟨he, ?_, ?_⟩
  · intro ce hce
    rw [he]
    simp [hce]
  · intro hce
    rw [he]
    simp [hce]

/-- Witness for C1: in the environment where every attempt fails with
tag 3, the strategy exits at once and the context holds error tag 9,
the run returns the context's error. -/
theorem exit_returns_ctx_or_last_error_witness :
    (cyclerLoop envExit 2 1 0).1 = some (some (.err 9)) :=
  (exit_returns_ctx_or_last_error envExit 2 0 0 3 rfl rfl).2.1 (.err 9) rfl

/-- Claim C2: an attempt that returns an `ExitError` makes the run
return exactly the wrapped cause at that iteration; the trace of the
remaining run is the attempt event alone, so the strategy is never
consulted and no handler is ever notified for that attempt. -/
theorem terminal_error_returns_cause (env : Env) (H fuel n0 : Nat) (cause : GoError)
    (h : env.attempt (n0+1) = some (.exitErr cause)) :
    cyclerLoop env H (fuel+1) n0 =
      (some (some cause), [.attempted (n0+1) (some (.exitErr cause))]) ∧
    (∀ ev ∈ (cyclerLoop env H (fuel+1) n0).2,
      (∀ k d, ev ≠ .consulted k d) ∧ (∀ j k d e, ev ≠ .notified j k d e)) := by
  have he : cyclerLoop env H (fuel+1) n0 =
      (some (some cause), [.attempted (n0+1) (some (.exitErr cause))]) := by
    simp only [cyclerLoop]
    rw [h]
  refine ⟨he, ?_⟩
  rw [he]
  intro ev hev
  simp only [List.mem_singleton] at hev
  subst hev
  exact ⟨fun k d => by simp, fun j k d e => by simp⟩

/-- Witness for C2: an attempt returning `ExitError{Cause: err 7}`
makes the run return error tag 7 with a single attempt event. -/
theorem terminal_error_returns_cause_witness :
    cyclerLoop envTerminal 1 1 0 =
      (some (some (.err 7)), [.attempted 1 (some (.exitErr (.err 7)))]) :=
  (terminal_error_returns_cause envTerminal 1 0 0 (.err 7) rfl).1

/-- Claim C3, failing input: `exponential.Delay` has no overflow guard.
At `d` = 1s = 10^9 ns, `m` = 2 and `n` = 35 the float64 product
`float64(d) * math.Pow(m, 34)` is exactly 2^34 * 10^9 ns, which exceeds
the maximum `time.Duration` (2^63 - 1 ns); the unchecked conversion
produces the implementation-dependent out-of-range result, on amd64
math.MinInt64 = -2^63, a negative duration, instead of saturating to
the maximum representable duration. (All float64 operations involved
are exact for these inputs, so the rational model coincides with the
code here.) -/
theorem exponential_overflow_negative :
    Exponential (10^9) 2 = some (.exponential (10^9) 2) ∧
    Strategy.Delay (.exponential (10^9) 2) 35 0 0 0 = -(2^63) ∧
    Strategy.Delay (.exponential (10^9) 2) 35 0 0 0 < 0 := by
  have hd : Strategy.Delay (.exponential (10^9) 2) 35 0 0 0 = -(2^63) := by
    rw [Strategy.Delay, float2int64]
    norm_num
  have h1 : ¬ ((10^9 : Int) < 0) := by norm_num
  have h2 : ¬ ((2:ℚ) < 0) := by norm_num
  have h3 : ¬ ((10^9 : Int) = 0 ∨ (2:ℚ) = 0) := by norm_num
  have h4 : ¬ ((2:ℚ) = 1) := by norm_num
  exact ⟨by rw [Exponential, if_neg h1, if_neg h2, if_neg h3, if_neg h4],
         hd, by rw [hd]; norm_num⟩

/-- Helper for C4: a handler-notification event can occur in a run's
trace only for an attempt that failed with an ordinary error and for
which the strategy returned a non-`Exit` delay; its payload is that
attempt's delay and error, and its handler index is within range. -/
theorem notified_only_for_retried_failures (env : Env) (H : Nat) :
    ∀ (fuel n0 j k : Nat) (d : Duration) (e : GoError),
      Event.notified j k d e ∈ (cyclerLoop env H fuel n0).2 →
      j < H ∧ env.attempt k = some e ∧ (∃ tag, e = .err tag) ∧
        d = env.delay k ∧ d ≠ Exit := by
  intro fuel
  induction fuel with
  | zero =>
    intro n0 j k d e hm
    simp [cyclerLoop] at hm
  | succ fuel ih =>
    intro n0 j k d e hm
    rw [cyclerLoop] at hm
    rcases ha : env.attempt (n0+1) with _ | e'
    · rw [ha] at hm
      simp at hm
    · rcases e' with cause | tag
      · rw [ha] at hm
        simp at hm
      · rw [ha] at hm
        dsimp only at hm
        by_cases hd : env.delay (n0+1) = Exit
        · rw [if_pos hd] at hm
          simp at hm
        · rw [if_neg hd] at hm
          by_cases hw : env.ctxWinsWait (n0+1) = true
          · rw [if_pos hw] at hm
            simp at hm
            obtain ⟨a, haH, rfl, hk, hdd, he⟩ := hm
            subst hk
            exact ⟨haH, he ▸ ha, ⟨tag, he.symm⟩, hdd.symm, fun hc => hd (hdd ▸ hc)⟩
          · rw [if_neg hw] at hm
            simp at hm
            rcases hm with ⟨a, haH, rfl, hk, hdd, he⟩ | hrest
            · subst hk
              exact ⟨haH, he ▸ ha, ⟨tag, he.symm⟩, hdd.symm, fun hc => hd (hdd ▸ hc)⟩
            · exact ih (n0+1) j k d e hrest

/-- Claim C4: when an attempt fails with an ordinary error and the
strategy returns a non-`Exit` delay, the iteration's trace is exactly
the attempt, the strategy consultation, then one notification per
registered handler — indices `0..H-1` in registration order, each with
the attempt number, the computed delay and the attempt's error — and
only then the wait (either won by the cancellation or elapsing and
continuing the loop). Moreover a notification event can only ever occur
for an attempt that failed with an ordinary error and a non-`Exit`
delay, so no handler is ever notified for an attempt that succeeds,
returns a terminal error, or triggers `Exit`. -/
theorem observers_in_order_before_wait (env : Env) (H fuel n0 tag : Nat)
    (h : env.attempt (n0+1) = some (.err tag))
    (hd : env.delay (n0+1) ≠ Exit) :
    ((cyclerLoop env H (fuel+1) n0).2 =
      .attempted (n0+1) (some (.err tag)) :: .consulted (n0+1) (env.delay (n0+1)) ::
      (((List.range H).map fun j =>
          Event.notified j (n0+1) (env.delay (n0+1)) (.err tag)) ++
        (if env.ctxWinsWait (n0+1) then
          [.cancelledInWait (n0+1) (env.ctxErrAtWait (n0+1))]
         else .waited (n0+1) (env.delay (n0+1)) :: (cyclerLoop env H fuel (n0+1)).2))) ∧
    (∀ (fuel2 n1 j k : Nat) (dl : Duration) (e : GoError),
      Event.notified j k dl e ∈ (cyclerLoop env H fuel2 n1).2 →
      j < H ∧ env.attempt k = some e ∧ (∃ t2, e = .err t2) ∧
        dl = env.delay k ∧ dl ≠ Exit) := by
  refine ⟨?_, notified_only_for_retried_failures env H⟩
  rw [cyclerLoop]
  rw [h]
  dsimp only
  rw [if_neg hd]
  by_cases hw : env.ctxWinsWait (n0+1) = true
  · rw [if_pos hw, if_pos hw]
  · rw [if_neg hw, if_neg hw]

/-- Witness for C4: with two registered handlers and a failing attempt
with delay 10 ns, the trace shows both notifications, in index order,
between the strategy consultation and the wait. -/
theorem observers_in_order_before_wait_witness :
    (cyclerLoop envRetry 2 1 0).2 =
      .attempted 1 (some (.err 4)) :: .consulted 1 (envRetry.delay 1) ::
      (((List.range 2).map fun j =>
          Event.notified j 1 (envRetry.delay 1) (.err 4)) ++
        (if envRetry.ctxWinsWait 1 then
          [.cancelledInWait 1 (envRetry.ctxErrAtWait 1)]
         else .waited 1 (envRetry.delay 1) :: (cyclerLoop envRetry 2 0 1).2)) :=
  (observers_in_order_before_wait envRetry 2 0 0 4 rfl (by decide)).1

/-- Claim C5, counterexample: the claim places the returned (truncated)
duration inside the window `[D*(1-spread), D*(1+spread)+1]`, but with
inner base delay `D` = 1 ns, spread 1/2 and random sample 0 the code
computes `time.Duration(1 - 0.5 + 0*(2*0.5 + 1)) = time.Duration(0.5)`
= 0 ns, strictly below the claimed lower bound `D*(1-spread)` = 0.5 ns
(the float64 computation is exact for these inputs). -/
theorem jitter_window_counterexample :
    Jitter (.constant 1) (1/2) = some (.jitter (.constant 1) (1/2)) ∧
    Strategy.Delay (.jitter (.constant 1) (1/2)) 1 0 0 0 = 0 ∧
    ¬ ((1:ℚ) * (1 - 1/2) ≤
        ((Strategy.Delay (.jitter (.constant 1) (1/2)) 1 0 0 0 : Int) : ℚ)) := by
  have hd : Strategy.Delay (.jitter (.constant 1) (1/2)) 1 0 0 0 = 0 := by
    rw [Strategy.Delay]
    norm_num [Strategy.Delay, Exit, float2int64]
  refine ⟨?_, hd, ?_⟩
  · have hc : ¬ ((1/2 : ℚ) < 0 ∨ (1:ℚ) ≤ 1/2) := by norm_num
    rw [Jitter, if_neg hc, if_neg (by norm_num)]
  · rw [hd]
    norm_num

/-- Claim C5, amended: for spread in `[0,1)` and random sample `r` in
`[0,1)`: an inner `Exit` passes through unchanged; spread 0 makes the
`Jitter` constructor return the inner strategy itself (so the base
delay is reproduced exactly); a positive spread builds the `jitter`
wrapper; and for an inner delay `D >= 0` (whose real-valued jittered
value stays below 2^63, the int64 conversion range) the code returns
the floor of `D - spread*D + r*(2*spread*D + 1)`. That real value lies
in `[D*(1-spread), D*(1+spread)+1)`, and the returned truncated
duration lies in the slightly wider open window
`(D*(1-spread) - 1, D*(1+spread) + 1)`. -/
theorem jitter_window_amended (inner : Strategy) (sp r : ℚ) (n start now : Int)
    (h0 : 0 ≤ sp) (h1 : sp < 1) (hr0 : 0 ≤ r) (hr1 : r < 1) :
    (inner.Delay n start now r = Exit →
      (Strategy.jitter inner sp).Delay n start now r = Exit) ∧
    Jitter inner 0 = some inner ∧
    (0 < sp → Jitter inner sp = some (.jitter inner sp)) ∧
    (∀ D : Int, inner.Delay n start now r = D → 0 ≤ D →
      (D:ℚ) * (1 + sp) + 1 < 2^63 →
      (Strategy.jitter inner sp).Delay n start now r =
        Int.floor ((D:ℚ) - (D:ℚ) * sp + r * (2 * ((D:ℚ) * sp) + 1)) ∧
      (D:ℚ) * (1 - sp) ≤ (D:ℚ) - (D:ℚ) * sp + r * (2 * ((D:ℚ) * sp) + 1) ∧
      (D:ℚ) - (D:ℚ) * sp + r * (2 * ((D:ℚ) * sp) + 1) < (D:ℚ) * (1 + sp) + 1 ∧
      (D:ℚ) * (1 - sp) - 1 < ((Strategy.jitter inner sp).Delay n start now r : ℚ) ∧
      ((Strategy.jitter inner sp).Delay n start now r : ℚ) < (D:ℚ) * (1 + sp) + 1) := by
  refine ⟨?_, ?_, ?_, ?_⟩
  · intro he
    rw [Strategy.Delay]
    simp [he]
  · have hc : ¬ ((0:ℚ) < 0 ∨ (1:ℚ) ≤ 0) := by norm_num
    rw [Jitter, if_neg hc, if_pos rfl]
  · intro hsp
    have hc : ¬ (sp < 0 ∨ 1 ≤ sp) := not_or.mpr ⟨not_lt.mpr h0, not_le.mpr h1⟩
    rw [Jitter, if_neg hc, if_neg hsp.ne']
  · intro D hD hD0 hbound
    have hDq : (0:ℚ) ≤ (D:ℚ) := by exact_mod_cast hD0
    have hw0 : (0:ℚ) ≤ (D:ℚ) * sp := mul_nonneg hDq h0
    have hDne : ¬ (D = Exit) := by
      rw [Exit]
      omega
    set v : ℚ := (D:ℚ) - (D:ℚ) * sp + r * (2 * ((D:ℚ) * sp) + 1) with hv
    have hrpos : (0:ℚ) ≤ r * (2 * ((D:ℚ) * sp) + 1) :=
      mul_nonneg hr0 (by linarith)
    have hlow : (D:ℚ) * (1 - sp) ≤ v := by
      have hexp : (D:ℚ) * (1 - sp) = (D:ℚ) - (D:ℚ) * sp := by ring
      rw [hexp, hv]
      linarith
    have hrlt : r * (2 * ((D:ℚ) * sp) + 1) < 2 * ((D:ℚ) * sp) + 1 := by
      have hpos : (0:ℚ) < 2 * ((D:ℚ) * sp) + 1 := by linarith
      nlinarith
    have hhigh : v < (D:ℚ) * (1 + sp) + 1 := by
      have hexp : (D:ℚ) * (1 + sp) + 1 = (D:ℚ) - (D:ℚ) * sp + (2 * ((D:ℚ) * sp) + 1) := by
        ring
      rw [hexp, hv]
      linarith
    have hv0 : (0:ℚ) ≤ v := by
      have hp : (0:ℚ) ≤ (D:ℚ) * (1 - sp) := mul_nonneg hDq (by linarith)
      linarith
    have hvlt : v < 2^63 := lt_trans hhigh hbound
    have heq : (Strategy.jitter inner sp).Delay n start now r = Int.floor v := by
      rw [Strategy.Delay]
      simp only [hD, if_neg hDne]
      rw [float2int64]
      have hc : ¬ (v ≤ -(2^63) ∨ (2^63:ℚ) ≤ v) := by
        push_neg
        constructor
        · linarith [show (-(2^63):ℚ) < 0 by norm_num]
        · exact hvlt
      rw [if_neg hc, if_pos hv0]
    refine ⟨heq, hlow, hhigh, ?_, ?_⟩
    · rw [heq]
      have hfl := Int.sub_one_lt_floor v
      linarith
    · rw [heq]
      have hfl := Int.floor_le v
      linarith

/-- Witness for C5 (amended): the repository's own test vector — base
delay 1s, spread 1/4, random sample 1/4 — yields 875 ms, inside the
amended window. -/
theorem jitter_window_amended_witness :
    Strategy.Delay (.jitter (.constant (10^9)) (1/4)) 1 0 0 (1/4) = 875000000 ∧
    ((10^9 : Int) : ℚ) * (1 - 1/4) - 1 < ((875000000 : Int) : ℚ) ∧
    ((875000000 : Int) : ℚ) < ((10^9 : Int) : ℚ) * (1 + 1/4) + 1 := by
  have hval : Strategy.Delay (.jitter (.constant (10^9)) (1/4)) 1 0 0 (1/4) = 875000000 := by
    rw [Strategy.Delay]
    norm_num [Strategy.Delay, Exit, float2int64]
  have h := (jitter_window_amended (.constant (10^9)) (1/4) (1/4) 1 0 0
    (by norm_num) (by norm_num) (by norm_num) (by norm_num)).2.2.2
    (10^9) rfl (by norm_num) (by push_cast; norm_num)
  obtain ⟨heq, hl2, hh2, hlo, hhi⟩ := h
  rw [hval] at hlo hhi
  exact ⟨hval, hlo, hhi⟩

/-- Claim C6: for a positive limit the `Timeout` constructor builds the
`timeout` wrapper, whose delay is `Exit` exactly when the elapsed time
`clock.Time().Sub(start)` has reached the limit — the boundary is
inclusive (`>=`), so elapsed time exactly equal to the limit already
yields `Exit` — and otherwise delegates to the inner strategy. -/
theorem timeout_boundary_inclusive (inner : Strategy) (lim n start now : Int) (r : ℚ)
    (hl : 0 < lim) :
    Timeout inner lim = .timeout inner lim ∧
    (Timeout inner lim).Delay n start now r =
      (if now - start ≥ lim then Exit else inner.Delay n start now r) ∧
    (now - start = lim → (Timeout inner lim).Delay n start now r = Exit) := by
  have hno : ¬ lim ≤ 0 := not_le.mpr hl
  have hc : Timeout inner lim = .timeout inner lim := by rw [Timeout, if_neg hno]
  refine ⟨hc, by rw [hc, Strategy.Delay], ?_⟩
  intro he
  have hge : now - start ≥ lim := ge_of_eq he
  rw [hc, Strategy.Delay, if_pos hge]

/-- Witness for C6 (scenario F of the spec): `timeout(constant(1s), 2s)`
evaluated when exactly 2s have elapsed returns `Exit`. -/
theorem timeout_boundary_inclusive_witness :
    (Timeout (.constant (10^9)) (2 * 10^9)).Delay 1 0 (2 * 10^9) 0 = Exit :=
  (timeout_boundary_inclusive (.constant (10^9)) (2 * 10^9) 1 0 (2 * 10^9) 0
    (by norm_num)).2.2 (by norm_num)

/-- Claim C7: for `d > 0`, `m > 0` (with `d` in int64 range, as any Go
duration is) every strategy the `Exponential` constructor returns
computes, at attempt `n >= 1`, the duration conversion of
`float64(d) * m^(n-1)`; the constructor degenerates to `Constant(d)`
when `m = 1` and to `Constant(0)` when `d = 0` or `m = 0`; and
`exponential(1s, 2.0)` sampled at `n` = 1..4 yields exactly 1s, 2s, 4s
and 8s (all float64 steps being exact there). -/
theorem exponential_formula (d : Duration) (m : ℚ) (start now : Int) (r : ℚ) :
    (0 < d → 0 < m → d < 2^63 →
      ∀ s, Exponential d m = some s →
        ∀ n : Int, 1 ≤ n →
          s.Delay n start now r = float2int64 ((d:ℚ) * m ^ (n-1))) ∧
    (0 ≤ d → m = 1 → Exponential d m = Constant d) ∧
    (0 ≤ m → Exponential 0 m = Constant 0) ∧
    (0 ≤ d → Exponential d 0 = Constant 0) ∧
    (Exponential (10^9) 2 = some (.exponential (10^9) 2) ∧
      Strategy.Delay (.exponential (10^9) 2) 1 start now r = 10^9 ∧
      Strategy.Delay (.exponential (10^9) 2) 2 start now r = 2 * 10^9 ∧
      Strategy.Delay (.exponential (10^9) 2) 3 start now r = 4 * 10^9 ∧
      Strategy.Delay (.exponential (10^9) 2) 4 start now r = 8 * 10^9) := by
  refine ⟨?_, ?_, ?_, ?_, ?_, ?_, ?_, ?_, ?_⟩
  · intro hd hm hlt s hs n hn
    by_cases hm1 : m = 1
    · subst hm1
      have hc1 : ¬ (d < 0) := not_lt.mpr hd.le
      have hc2 : ¬ ((1:ℚ) < 0) := by norm_num
      have hc3 : ¬ (d = 0 ∨ (1:ℚ) = 0) := by
        push_neg
        exact ⟨hd.ne', one_ne_zero⟩
      have he : Exponential d 1 = some (.constant d) := by
        rw [Exponential, if_neg hc1, if_neg hc2, if_neg hc3, if_pos rfl,
            Constant, if_neg hc1]
      rw [he] at hs
      have hsc : s = .constant d := by
        injection hs with h
        exact h.symm
      subst hsc
      rw [Strategy.Delay, one_zpow, mul_one, float2int64]
      have c1 : ¬ ((d:ℚ) ≤ -(2^63) ∨ (2^63:ℚ) ≤ (d:ℚ)) := by
        push_neg
        constructor
        · have hdt : (-(2^63) : Int) < d := lt_trans (by norm_num) hd
          exact_mod_cast hdt
        · exact_mod_cast hlt
      have c2 : (0:ℚ) ≤ (d:ℚ) := by exact_mod_cast hd.le
      rw [if_neg c1, if_pos c2, Int.floor_intCast]
    · have hc1 : ¬ (d < 0) := not_lt.mpr hd.le
      have hc2 : ¬ (m < 0) := not_lt.mpr hm.le
      have hc3 : ¬ (d = 0 ∨ m = 0) := by
        push_neg
        exact ⟨hd.ne', hm.ne'⟩
      have he : Exponential d m = some (.exponential d m) := by
        rw [Exponential, if_neg hc1, if_neg hc2, if_neg hc3, if_neg hm1]
      rw [he] at hs
      have hsc : s = .exponential d m := by
        injection hs with h
        exact h.symm
      subst hsc
      rw [Strategy.Delay]
  · intro hd0 hm1
    subst hm1
    by_cases hd00 : d = 0
    · subst hd00
      rw [Exponential, if_neg (by norm_num), if_neg (by norm_num),
          if_pos (Or.inl rfl)]
    · have hc1 : ¬ (d < 0) := not_lt.mpr hd0
      have hc3 : ¬ (d = 0 ∨ (1:ℚ) = 0) := by
        push_neg
        exact ⟨hd00, one_ne_zero⟩
      rw [Exponential, if_neg hc1, if_neg (by norm_num), if_neg hc3, if_pos rfl]
  · intro hm
    rw [Exponential, if_neg (by norm_num), if_neg (not_lt.mpr hm),
        if_pos (Or.inl rfl)]
  · intro hd0
    rw [Exponential, if_neg (not_lt.mpr hd0), if_neg (by norm_num),
        if_pos (Or.inr rfl)]
  · have h1 : ¬ ((10^9 : Int) < 0) := by norm_num
    have h2 : ¬ ((2:ℚ) < 0) := by norm_num
    have h3 : ¬ ((10^9 : Int) = 0 ∨ (2:ℚ) = 0) := by norm_num
    have h4 : ¬ ((2:ℚ) = 1) := by norm_num
    rw [Exponential, if_neg h1, if_neg h2, if_neg h3, if_neg h4]
  · rw [Strategy.Delay, float2int64]
    norm_num
  · rw [Strategy.Delay, float2int64]
    norm_num
  · rw [Strategy.Delay, float2int64]
    norm_num
  · rw [Strategy.Delay, float2int64]
    norm_num

/-- Witness for C7: the formula conjunct evaluated at `d` = 1s, `m` = 2,
`n` = 2, and the three degenerate constructor cases at concrete
parameters. -/
theorem exponential_formula_witness :
    Strategy.Delay (.exponential (10^9) 2) 2 0 0 0 =
      float2int64 (((10^9 : Int) : ℚ) * 2 ^ ((2:Int) - 1)) ∧
    Exponential 5 1 = Constant 5 ∧
    Exponential 0 3 = Constant 0 ∧
    Exponential 7 0 = Constant 0 := by
  refine ⟨?_, ?_, ?_, ?_⟩
  · exact (exponential_formula (10^9) 2 0 0 0).1 (by norm_num) (by norm_num)
      (by norm_num) _ (exponential_formula (10^9) 2 0 0 0).2.2.2.2.1 2 (by norm_num)
  · exact (exponential_formula 5 1 0 0 0).2.1 (by norm_num) rfl
  · exact (exponential_formula 0 3 0 0 0).2.2.1 (by norm_num)
  · exact (exponential_formula 7 0 0 0 0).2.2.2.1 (by norm_num)

/-- Claim C8: each decorator constructor given a disabling parameter
returns the inner strategy value itself, unchanged: `Cap` with
`max <= 0`, `Limit` with `n < 1`, `Timeout` with `limit <= 0`, and
`Jitter` with spread 0 (the latter behind `some`, since `Jitter` can
panic on other inputs). -/
theorem disabling_parameters_identity (s : Strategy) (mx k lim : Int) :
    (mx ≤ 0 → Cap s mx = s) ∧ (k < 1 → Limit s k = s) ∧
    (lim ≤ 0 → Timeout s lim = s) ∧ Jitter s 0 = some s := by
  have hs : ¬ ((0:ℚ) < 0 ∨ (1:ℚ) ≤ 0) := by norm_num
  refine ⟨fun h => ?_, fun h => ?_, fun h => ?_, ?_⟩
  · rw [Cap, if_pos h]
  · rw [Limit, if_pos h]
  · rw [Timeout, if_pos h]
  · rw [Jitter, if_neg hs, if_pos rfl]

/-- Witness for C8: the four disabling parameters applied to the
`Constant 5` strategy all return it unchanged. -/
theorem disabling_parameters_identity_witness :
    Cap (.constant 5) 0 = .constant 5 ∧ Limit (.constant 5) 0 = .constant 5 ∧
    Timeout (.constant 5) (-1) = .constant 5 ∧
    Jitter (.constant 5) 0 = some (.constant 5) := by
  have h := disabling_parameters_identity (.constant 5) 0 0 (-1)
  exact ⟨h.1 (by norm_num), h.2.1 (by norm_num), h.2.2.1 (by norm_num), h.2.2.2⟩

/-- Claim C9: in every environment — including one whose cancellation
token is already signaled before the run starts — both `TryWithContext`
and `Try` invoke the attempt function, with attempt number 1, before
anything else: the run's trace always begins with the first attempt
event. -/
theorem attempt_invoked_at_least_once (env : Env) (H fuel : Nat) :
    (∃ tr, (TryWithContext env H (fuel+1)).2 = .attempted 1 (env.attempt 1) :: tr) ∧
    (∀ (a : Nat → Option GoError) (dl : Nat → Duration),
      ∃ tr, (Try a dl H (fuel+1)).2 = .attempted 1 (a 1) :: tr) := by
  have key : ∀ (e : Env), ∃ tr, (TryWithContext e H (fuel+1)).2 =
      .attempted 1 (e.attempt 1) :: tr := by
    intro e
    rw [TryWithContext]
    simp only [cyclerLoop]
    rcases h : e.attempt 1 with _ | e'
    · exact ⟨[], rfl⟩
    · rcases e' with cause | tag
      · exact ⟨[], rfl⟩
      · dsimp only
        split
        · exact ⟨_, rfl⟩
        · split
          · exact ⟨_, rfl⟩
          · exact ⟨_, rfl⟩
  exact ⟨key env, fun a dl => key _⟩

/-- Claim C10: when the context is already cancelled at the moment an
attempt fails with an ordinary error and the strategy returns a
non-`Exit` delay, the iteration still notifies every registered handler,
in registration order, and only afterwards observes the cancellation in
the wait's `select` and returns the context's error: no context read
occurs between the attempt invocation and the handler notifications. -/
theorem precancelled_handlers_before_cancellation (env : Env) (H fuel n0 tag : Nat)
    (ce : GoError)
    (h : env.attempt (n0+1) = some (.err tag))
    (hd : env.delay (n0+1) ≠ Exit)
    (hw : env.ctxWinsWait (n0+1) = true)
    (hce : env.ctxErrAtWait (n0+1) = ce) :
    cyclerLoop env H (fuel+1) n0 =
      (some (some ce),
       .attempted (n0+1) (some (.err tag)) :: .consulted (n0+1) (env.delay (n0+1)) ::
       (((List.range H).map fun j =>
           Event.notified j (n0+1) (env.delay (n0+1)) (.err tag)) ++
         [.cancelledInWait (n0+1) ce])) := by
  rw [cyclerLoop]
  rw [h]
  dsimp only
  rw [if_neg hd, if_pos hw, hce]

/-- Witness for C10: in a pre-cancelled environment with two handlers,
both notifications appear before the cancellation event and the
context's error tag 8 is returned. -/
theorem precancelled_handlers_before_cancellation_witness :
    cyclerLoop envPrecancelled 2 1 0 =
      (some (some (.err 8)),
       .attempted 1 (some (.err 4)) :: .consulted 1 (envPrecancelled.delay 1) ::
       (((List.range 2).map fun j =>
           Event.notified j 1 (envPrecancelled.delay 1) (.err 4)) ++
         [.cancelledInWait 1 (.err 8)])) :=
  precancelled_handlers_before_cancellation envPrecancelled 2 0 0 4 (.err 8)
    rfl (by decide) rfl rfl

end Retry
